import Mathlib

/-!
Verification development for the InstaTool batch pipeline (src/app.py).

The program is shallow-embedded: Python strings become Lean `String`
(operating on `List Char`), the scratch directory's contents become an
association list from paths to file sizes, and the two external tools
(yt-dlp retrieval, ffmpeg transcode) become explicit oracle functions
that may alter the filesystem and report success or failure.
-/

namespace InstaTool

/-! ## Python string primitives used by app.py -/

/-- ASCII whitespace stripped by Python's `str.strip()` (the code never
feeds non-ASCII whitespace to `strip`). -/
def isPySpace (c : Char) : Bool :=
  c = ' ' || c = '\t' || c = '\n' || c = '\r' || c = '\x0b' || c = '\x0c'

/-- Strip leading and trailing whitespace from a character list. -/
def stripList (l : List Char) : List Char :=
  ((l.dropWhile isPySpace).reverse.dropWhile isPySpace).reverse

/-- Python `s.strip()`. -/
def pyStrip (s : String) : String :=
  String.mk (stripList s.toList)

/-- Characters removed by `sanitize_filename` (the regex class in
`re.sub(r'[\\/*?:"<>|]', "", name)`). -/
def illegalChars : List Char :=
  ['\\', '/', '*', '?', ':', '"', '<', '>', '|']

/-- `sanitize_filename(name)`: remove the illegal characters, then strip
surrounding whitespace (app.py line 33-34). -/
def sanitize_filename (name : String) : String :=
  pyStrip (String.mk (name.toList.filter (fun c => !illegalChars.contains c)))

/-- Does `sep` occur at the very start of `l`? -/
def leadsWith : List Char → List Char → Bool
  | [], _ => true
  | _ :: _, [] => false
  | a :: as, b :: bs => a = b && leadsWith as bs

/-- Split a character list at the FIRST occurrence of `sep`, as Python's
`line.split(sep, 1)` does when `sep in line`; `none` when `sep` does not
occur (so Python's `sep in line` is `(firstSplit sep l).isSome`). -/
def firstSplit (sep : List Char) : List Char → Option (List Char × List Char)
  | [] => none
  | c :: rest =>
    if leadsWith sep (c :: rest) then some ([], (c :: rest).drop sep.length)
    else
      match firstSplit sep rest with
      | some (l, r) => some (c :: l, r)
      | none => none

/-- The literal separator `" - "` (space, hyphen, space). -/
def pySep : List Char := [' ', '-', ' ']

/-- Per-line parsing in main's loop (app.py lines 144-150): if `" - "`
occurs, split at its first occurrence and strip both sides, the left part
being the URL and the right part the custom name; otherwise the whole
line is the URL with no custom name. -/
def parseLine (line : String) : String × Option String :=
  match firstSplit pySep line.toList with
  | some (l, r) => (pyStrip (String.mk l), some (pyStrip (String.mk r)))
  | none => (line, none)

/-- Python `str.splitlines()` on ASCII line boundaries (`\n`, `\r\n`,
`\r`); no trailing empty line is produced. -/
def splitlinesList : List Char → List Char → List (List Char)
  | acc, [] => if acc.isEmpty then [] else [acc.reverse]
  | acc, '\r' :: '\n' :: rest => acc.reverse :: splitlinesList [] rest
  | acc, '\n' :: rest => acc.reverse :: splitlinesList [] rest
  | acc, '\r' :: rest => acc.reverse :: splitlinesList [] rest
  | acc, c :: rest => splitlinesList (c :: acc) rest

/-- `raw_input.splitlines()` for a Lean `String`. -/
def pySplitlines (s : String) : List String :=
  (splitlinesList [] s.toList).map String.mk

/-- `[line.strip() for line in raw_input.splitlines() if line.strip()]`
(app.py line 133): the stripped non-blank lines, in order. -/
def nonBlankLines (raw : String) : List String :=
  ((pySplitlines raw).map pyStrip).filter (fun s => s ≠ "")

/-- `pathlib.PurePath(name).stem`: the file name without its final
suffix; the suffix is `name[i:]` for `i = name.rfind('.')` only when
`0 < i < len(name) - 1`. -/
def lastIdxOf (c : Char) : List Char → Option Nat
  | [] => none
  | x :: xs =>
    match lastIdxOf c xs with
    | some k => some (k + 1)
    | none => if x = c then some 0 else none

/-- Python `Path(name).stem` (for a plain file name with no directory). -/
def pyStem (name : String) : String :=
  let cs := name.toList
  match lastIdxOf '.' cs with
  | some i => if 0 < i ∧ i < cs.length - 1 then String.mk (cs.take i) else name
  | none => name

/-! ## Filesystem model

All files the pipeline touches live in the batch scratch directory; a
path is a (directory, file name) pair so that `os.path.basename` is the
`name` projection, and the filesystem is an association list from paths
to file sizes in bytes. -/

/-- A filesystem path: directory plus base name (`os.path.basename`). -/
structure Fpath where
  dir : String
  name : String
deriving DecidableEq, Repr

/-- Filesystem state: which files exist, and their sizes. -/
abbrev FS := List (Fpath × Nat)

/-- `st_size` of the file at `p`, or `none` when it does not exist. -/
def fsSize (fs : FS) (p : Fpath) : Option Nat :=
  match fs with
  | [] => none
  | (q, n) :: rest => if q = p then some n else fsSize rest p

/-- `os.path.exists(p)` / `Path(p).exists()`. -/
def fsExists (fs : FS) (p : Fpath) : Bool :=
  (fsSize fs p).isSome

/-- `Path(p).exists() and Path(p).stat().st_size > 0`. -/
def fsPositive (fs : FS) (p : Fpath) : Bool :=
  match fsSize fs p with
  | some n => decide (0 < n)
  | none => false

/-- `Path(p).unlink()`: remove the file at `p`. -/
def fsErase (fs : FS) (p : Fpath) : FS :=
  fs.filter (fun e => e.1 ≠ p)

/-! ## External tool oracles

`yt_dlp` and `ffmpeg` are external processes; the embedding takes their
behaviour as oracle functions that transform the filesystem. -/

/-- Retrieval oracle, the behaviour of the `ydl.extract_info` /
`ydl.prepare_filename` block for one URL: given the url, the output
directory (from `outtmpl`), the cookie-file handle and the current
filesystem, it returns `some (declaredName, videoId)` when `extract_info`
returns normally (the prepared file name and `info['id']`) or `none` when
it raises, together with the filesystem after its side effects. -/
abbrev RetOracle := String → String → String → FS → Option (String × String) × FS

/-- Transcode oracle, the behaviour of `ffmpeg.run` for one input/output
pair: `true` when the encoder returned without raising, `false` when it
raised, together with the filesystem after its side effects (it may or
may not have created the output file). -/
abbrev TransOracle := Fpath → Fpath → FS → Bool × FS

/-! ## Item pipeline (app.py lines 40-96) -/

/-- The output file name chosen by `convert_to_quicktime_mp4`
(app.py lines 44-48): `sanitize_filename(custom) + ".mp4"` when a custom
name is given, else `stem + "_mac.mp4"`. -/
def targetName (inputName : String) (custom : Option String) : String :=
  match custom with
  | some c => sanitize_filename c ++ ".mp4"
  | none => pyStem inputName ++ "_mac.mp4"

/-- `convert_to_quicktime_mp4(input_path, custom_name)` (app.py lines
40-72): `none` when the input does not exist; otherwise run ffmpeg to
`input.dir / targetName`; if the output exists non-empty, unlink the
input (when the unlink raises because the input vanished, the `except`
branch yields the input path) and return the output path; on a missing
or empty output, or an ffmpeg exception, return the input path. -/
def convert_to_quicktime_mp4 (tr : TransOracle) (input : Fpath)
    (custom : Option String) (fs : FS) : Option Fpath × FS :=
  if fsExists fs input then
    let output : Fpath := ⟨input.dir, targetName input.name custom⟩
    match tr input output fs with
    | (true, fs') =>
      if fsPositive fs' output then
        if fsExists fs' input then (some output, fsErase fs' input)
        else (some input, fs')
      else (some input, fs')
    | (false, fs') => (some input, fs')
  else (none, fs)

/-- `Path(output_dir).glob(f"*{vid}*")` then `files[0]` (app.py line 91):
the first file in the scratch directory whose name contains the reported
video id. -/
def globFirst (fs : FS) (dir vid : String) : Option Fpath :=
  ((fs.filter (fun e =>
      e.1.dir = dir && (firstSplit vid.toList e.1.name.toList).isSome)).head?).map
    (fun e => e.1)

/-- The retrieval half of `download_single_video` (app.py lines 85-93):
call the retrieval oracle; on exception return `none`; otherwise take
the declared file if it exists, else fall back to the first scratch-dir
file whose name contains the video id, else `none`. -/
def retrievePhase (ret : RetOracle) (url dir cookies : String) (fs : FS) :
    Option Fpath × FS :=
  match ret url dir cookies fs with
  | (none, fs1) => (none, fs1)
  | (some (declared, vid), fs1) =>
    if fsExists fs1 ⟨dir, declared⟩ then (some ⟨dir, declared⟩, fs1)
    else
      match globFirst fs1 dir vid with
      | some found => (some found, fs1)
      | none => (none, fs1)

/-- `download_single_video(url, output_dir, cookies_path, custom_name)`
(app.py lines 74-96): retrieval phase, then transcode of the local file. -/
def download_single_video (ret : RetOracle) (tr : TransOracle)
    (url dir cookies : String) (custom : Option String) (fs : FS) :
    Option Fpath × FS :=
  match retrievePhase ret url dir cookies fs with
  | (none, fs1) => (none, fs1)
  | (some lf, fs1) => convert_to_quicktime_mp4 tr lf custom fs1

/-! ## Batch orchestrator (the loop in main, app.py lines 143-162) -/

/-- Result of the batch loop: `valid_files`, `failed_lines`, the final
filesystem, and the urls passed to the retrieval adapter (one call per
item, in order). -/
structure BatchResult where
  successes : List Fpath
  failures : List String
  fsAfter : FS
  retCallUrls : List String
deriving DecidableEq, Repr

/-- The `for i, line in enumerate(lines)` loop (app.py lines 143-162):
parse the line, run the item pipeline, and append the result path to
`valid_files` when it is non-None and exists, else append the url to
`failed_lines`. -/
def runBatch (ret : RetOracle) (tr : TransOracle) (cookies dir : String) :
    List String → FS → BatchResult
  | [], fs => ⟨[], [], fs, []⟩
  | line :: rest, fs =>
    let url := (parseLine line).1
    let custom := (parseLine line).2
    match download_single_video ret tr url dir cookies custom fs with
    | (some p, fs1) =>
      let r := runBatch ret tr cookies dir rest fs1
      if fsExists fs1 p then
        ⟨p :: r.successes, r.failures, r.fsAfter, url :: r.retCallUrls⟩
      else
        ⟨r.successes, url :: r.failures, r.fsAfter, url :: r.retCallUrls⟩
    | (none, fs1) =>
      let r := runBatch ret tr cookies dir rest fs1
      ⟨r.successes, url :: r.failures, r.fsAfter, url :: r.retCallUrls⟩

/-- Instrumented view of the same loop: each success path paired with
the filesystem state at the moment `valid_files.append` runs. -/
def runBatchTrace (ret : RetOracle) (tr : TransOracle) (cookies dir : String) :
    List String → FS → List (Fpath × FS)
  | [], _ => []
  | line :: rest, fs =>
    match download_single_video ret tr (parseLine line).1 dir cookies
        (parseLine line).2 fs with
    | (some p, fs1) =>
      if fsExists fs1 p then (p, fs1) :: runBatchTrace ret tr cookies dir rest fs1
      else runBatchTrace ret tr cookies dir rest fs1
    | (none, fs1) => runBatchTrace ret tr cookies dir rest fs1

/-! ## main (app.py lines 99-190) -/

/-- `get_cookie_file_from_text(text_data)` (app.py lines 26-31): `None`
for falsy or shorter-than-50 text; otherwise the text is written to a
fresh temporary file whose handle the model identifies with the text
itself. -/
def get_cookie_file_from_text (text_data : String) : Option String :=
  if text_data = "" ∨ text_data.length < 50 then none
  else some text_data

/-- Observable effects of one `main` run. `parsedLines` is `none` when
the input area was never parsed, `report` is `none` when the batch loop
never ran, `archiveEntries` is the list of zip entry names
(`arcname=os.path.basename(file_path)`, in order) or `none` when the zip
block was never entered. -/
structure MainEffects where
  authWarned : Bool
  parsedLines : Option (List String)
  retCallUrls : List String
  report : Option (List Fpath × List String)
  archiveEntries : Option (List String)
  noLinksWarned : Bool
deriving DecidableEq, Repr

/-- One run of `main` (app.py lines 99-190): resolve the cookie text
(server secret first, else the typed key), stop with a warning when no
cookie file results; otherwise, on a button press, parse the non-blank
lines, run the batch loop over them (warning instead when there are
none), and when `valid_files` is non-empty write each file into the zip
under its base name. `batchDir` stands for the fresh
`tempfile.mkdtemp()` directory. -/
def mainRun (ret : RetOracle) (tr : TransOracle) (secret : Option String)
    (typedKey rawInput batchDir : String) (pressed : Bool) (fs : FS) :
    MainEffects :=
  let cookieContent := secret.getD typedKey
  match get_cookie_file_from_text cookieContent with
  | none => ⟨true, none, [], none, none, false⟩
  | some cookiePath =>
    if pressed then
      let lines := nonBlankLines rawInput
      if lines.isEmpty then ⟨false, some lines, [], none, none, true⟩
      else
        let r := runBatch ret tr cookiePath batchDir lines fs
        let arch :=
          if r.successes.isEmpty then none
          else some (r.successes.map Fpath.name)
        ⟨false, some lines, r.retCallUrls, some (r.successes, r.failures), arch,
          false⟩
    else ⟨false, none, [], none, none, false⟩

/-! ## Concrete adapter behaviours used to exercise the pipeline -/

/-- A 50-character access key (the shortest usable credential text). -/
def key50 : String := "01234567890123456789012345678901234567890123456789"

/-- Retrieval behaviour that always succeeds, creating `vid1.mp4` of the
given size in the scratch directory. -/
def retAlways (sz : Nat) : RetOracle := fun _ dir _ fs =>
  (some ("vid1.mp4", "vid1"), (⟨dir, "vid1.mp4"⟩, sz) :: fs)

/-- Retrieval behaviour that returns normally, declaring a file it did
not create (no filesystem effect). -/
def retDeclare (nm vid : String) : RetOracle := fun _ _ _ fs =>
  (some (nm, vid), fs)

/-- Transcode behaviour that returns normally after creating the output
file with the given size. -/
def trMake (sz : Nat) : TransOracle := fun _ out fs => (true, (out, sz) :: fs)

/-- Transcode behaviour that raises, leaving the filesystem unchanged. -/
def trRaise : TransOracle := fun _ _ fs => (false, fs)

/-- Retrieval behaviour for the spec's two-item scenario: the first URL
retrieves `A1.mp4`, every other URL retrieves `b.mp4`, both non-empty. -/
def retScenario : RetOracle := fun url dir _ fs =>
  if url = "https://example.com/a" then
    (some ("A1.mp4", "A1"), (⟨dir, "A1.mp4"⟩, 100) :: fs)
  else
    (some ("b.mp4", "b"), (⟨dir, "b.mp4"⟩, 100) :: fs)

/-! ## Lemmas about the separator search -/

theorem leadsWith_eq_append (sep : List Char) :
    ∀ l : List Char, leadsWith sep l = true → l = sep ++ l.drop sep.length := by
  induction sep with
  | nil => intro l _; simp
  | cons a as ih =>
    intro l h
    cases l with
    | nil => simp [leadsWith] at h
    | cons b bs =>
      simp only [leadsWith, Bool.and_eq_true, decide_eq_true_eq] at h
      obtain ⟨rfl, h2⟩ := h
      have := ih bs h2
      simpa [List.drop] using this

theorem leadsWith_of_append (sep r : List Char) :
    leadsWith sep (sep ++ r) = true := by
  induction sep with
  | nil => simp [leadsWith]
  | cons a as ih => simp [leadsWith, ih]

theorem firstSplit_concat (sep : List Char) :
    ∀ s l r, firstSplit sep s = some (l, r) → s = l ++ sep ++ r := by
  intro s
  induction s with
  | nil => intro l r h; simp [firstSplit] at h
  | cons c rest ih =>
    intro l r h
    by_cases hl : leadsWith sep (c :: rest) = true
    · simp only [firstSplit, hl, if_pos, Option.some.injEq, Prod.mk.injEq] at h
      obtain ⟨rfl, rfl⟩ := h
      simpa using leadsWith_eq_append sep (c :: rest) hl
    · simp only [firstSplit, hl, if_neg, Bool.not_eq_true] at h
      cases hfs : firstSplit sep rest with
      | none => rw [hfs] at h; cases h
      | some p =>
        rw [hfs] at h
        cases p with
        | mk l0 r0 =>
          simp only [Option.some.injEq, Prod.mk.injEq] at h
          obtain ⟨rfl, rfl⟩ := h
          have := ih l0 r0 hfs
          simp [this]

theorem firstSplit_minimal (sep : List Char) :
    ∀ s l r, firstSplit sep s = some (l, r) →
      ∀ l' r', s = l' ++ sep ++ r' → l.length ≤ l'.length := by
  intro s
  induction s with
  | nil => intro l r h; simp [firstSplit] at h
  | cons c rest ih =>
    intro l r h l' r' hdec
    by_cases hl : leadsWith sep (c :: rest) = true
    · simp only [firstSplit, hl, if_pos] at h
      have : l = [] := by
        have := congrArg (fun o => o.map Prod.fst) h
        simpa using this.symm
      simp [this]
    · simp only [firstSplit, hl, if_neg, Bool.not_eq_true] at h
      cases hfs : firstSplit sep rest with
      | none => rw [hfs] at h; cases h
      | some p =>
        rw [hfs] at h
        cases p with
        | mk l0 r0 =>
          simp only [Option.some.injEq, Prod.mk.injEq] at h
          obtain ⟨rfl, rfl⟩ := h
          cases l' with
          | nil =>
            exfalso
            apply hl
            rw [show c :: rest = sep ++ r' by simpa using hdec]
            exact leadsWith_of_append sep r'
          | cons c' l'' =>
            simp only [List.cons_append, List.cons.injEq] at hdec
            obtain ⟨rfl, hrest⟩ := hdec
            have := ih l0 r0 hfs l'' r' hrest
            simpa [Nat.succ_le_succ_iff] using this

/-- C7: for every non-blank input line containing the separator
`" - "`, the parser splits at the first occurrence only — the trimmed
left part is the URL and the entire trimmed right part is the custom
name — and a line with no separator yields the whole line as the URL
with no custom name. -/
theorem parser_splits_at_first_separator (line : String) :
    (∀ l r, firstSplit pySep line.toList = some (l, r) →
        parseLine line = (pyStrip (String.mk l), some (pyStrip (String.mk r)))
        ∧ line.toList = l ++ pySep ++ r
        ∧ ∀ l' r', line.toList = l' ++ pySep ++ r' → l.length ≤ l'.length)
    ∧ (firstSplit pySep line.toList = none → parseLine line = (line, none)) := by
  constructor
  · intro l r h
    refine ⟨?_, firstSplit_concat pySep line.toList l r h,
      firstSplit_minimal pySep line.toList l r h⟩
    have h' : firstSplit pySep line.data = some (l, r) := h
    simp [parseLine, String.toList, h']
  · intro h
    have h' : firstSplit pySep line.data = none := h
    simp [parseLine, String.toList, h']

/-- Concrete check of C7 at the spec's own example: `"http://x - a - b"`
gives url `"http://x"` and custom name `"a - b"`. -/
theorem parser_splits_at_first_separator_witness :
    parseLine "http://x - a - b" = ("http://x", some "a - b") :=
  ((parser_splits_at_first_separator "http://x - a - b").1
    "http://x".toList "a - b".toList (by decide)).1

/-! ## The batch loop partitions the input lines -/

theorem runBatch_length (ret : RetOracle) (tr : TransOracle) (ck dir : String) :
    ∀ (lines : List String) (fs : FS),
      (runBatch ret tr ck dir lines fs).successes.length
        + (runBatch ret tr ck dir lines fs).failures.length = lines.length := by
  intro lines
  induction lines with
  | nil => intro fs; simp [runBatch]
  | cons line rest ih =>
    intro fs
    simp only [runBatch]
    cases hd : download_single_video ret tr (parseLine line).1 dir ck
        (parseLine line).2 fs with
    | mk fp fs1 =>
      cases fp with
      | some p =>
        by_cases he : fsExists fs1 p = true
        · simp only [he, if_true, List.length_cons]
          have h2 := ih fs1
          omega
        · simp only [Bool.not_eq_true] at he
          simp only [he, Bool.false_eq_true, if_false, List.length_cons]
          have h2 := ih fs1
          omega
      | none =>
        simp only [List.length_cons]
        have h2 := ih fs1
        omega

/-- C1: with a usable credential and a non-empty list of non-blank input
lines, the batch loop runs and records every line's outcome in exactly
one of the two result sequences: the report satisfies
`len(successes) + len(failures) = number of non-blank input lines`. -/
theorem batch_partitions_nonblank_lines (ret : RetOracle) (tr : TransOracle)
    (secret : Option String) (typedKey rawInput batchDir : String) (fs : FS)
    (ck : String)
    (hck : get_cookie_file_from_text (secret.getD typedKey) = some ck)
    (hne : nonBlankLines rawInput ≠ []) :
    (mainRun ret tr secret typedKey rawInput batchDir true fs).report
      = some ((runBatch ret tr ck batchDir (nonBlankLines rawInput) fs).successes,
              (runBatch ret tr ck batchDir (nonBlankLines rawInput) fs).failures)
    ∧ (runBatch ret tr ck batchDir (nonBlankLines rawInput) fs).successes.length
        + (runBatch ret tr ck batchDir (nonBlankLines rawInput) fs).failures.length
      = (nonBlankLines rawInput).length := by
  constructor
  · simp [mainRun, hck, List.isEmpty_iff, hne]
  · exact runBatch_length ret tr ck batchDir (nonBlankLines rawInput) fs

/-- Concrete check of C1: two input lines, the first retrieved and
transcoded, the second retrieved with the transcoder raising; the
report counts 2 = 2 + 0. -/
theorem batch_partitions_nonblank_lines_witness :
    (mainRun (retAlways 9) (trMake 5) none key50 "u1\nu2" "d" true []).report
      = some ((runBatch (retAlways 9) (trMake 5) key50 "d"
                (nonBlankLines "u1\nu2") []).successes,
              (runBatch (retAlways 9) (trMake 5) key50 "d"
                (nonBlankLines "u1\nu2") []).failures)
    ∧ (runBatch (retAlways 9) (trMake 5) key50 "d"
          (nonBlankLines "u1\nu2") []).successes.length
        + (runBatch (retAlways 9) (trMake 5) key50 "d"
            (nonBlankLines "u1\nu2") []).failures.length
      = (nonBlankLines "u1\nu2").length :=
  batch_partitions_nonblank_lines (retAlways 9) (trMake 5) none key50 "u1\nu2"
    "d" [] key50 (by decide) (by decide)

/-! ## What holds of a path at the moment it is appended to valid_files -/

theorem runBatchTrace_fst (ret : RetOracle) (tr : TransOracle) (ck dir : String) :
    ∀ (lines : List String) (fs : FS),
      (runBatchTrace ret tr ck dir lines fs).map Prod.fst
        = (runBatch ret tr ck dir lines fs).successes := by
  intro lines
  induction lines with
  | nil => intro fs; simp [runBatch, runBatchTrace]
  | cons line rest ih =>
    intro fs
    simp only [runBatch, runBatchTrace]
    cases hd : download_single_video ret tr (parseLine line).1 dir ck
        (parseLine line).2 fs with
    | mk fp fs1 =>
      cases fp with
      | some p =>
        by_cases he : fsExists fs1 p = true
        · simp only [he, if_true, List.map_cons]
          rw [ih fs1]
        · simp only [Bool.not_eq_true] at he
          simp only [he, Bool.false_eq_true, if_false]
          exact ih fs1
      | none => exact ih fs1

theorem runBatchTrace_exists (ret : RetOracle) (tr : TransOracle) (ck dir : String) :
    ∀ (lines : List String) (fs : FS) (pr : Fpath × FS),
      pr ∈ runBatchTrace ret tr ck dir lines fs → fsExists pr.2 pr.1 = true := by
  intro lines
  induction lines with
  | nil => intro fs pr h; simp [runBatchTrace] at h
  | cons line rest ih =>
    intro fs pr h
    simp only [runBatchTrace] at h
    cases hd : download_single_video ret tr (parseLine line).1 dir ck
        (parseLine line).2 fs with
    | mk fp fs1 =>
      rw [hd] at h
      cases fp with
      | some p =>
        by_cases he : fsExists fs1 p = true
        · simp only [he, if_true, List.mem_cons] at h
          rcases h with rfl | h
          · exact he
          · exact ih fs1 pr h
        · simp only [Bool.not_eq_true] at he
          simp only [he, Bool.false_eq_true, if_false] at h
          exact ih fs1 pr h
      | none => exact ih fs1 pr h

/-- C5 amended: every path appended to `valid_files` refers to a file
that exists at the moment it is appended (the loop's guard is
`os.path.exists` only, so the recorded file need not be non-empty). -/
theorem successes_exist_at_append (ret : RetOracle) (tr : TransOracle)
    (ck dir : String) (lines : List String) (fs : FS) :
    (∀ pr ∈ runBatchTrace ret tr ck dir lines fs, fsExists pr.2 pr.1 = true)
    ∧ (runBatchTrace ret tr ck dir lines fs).map Prod.fst
        = (runBatch ret tr ck dir lines fs).successes :=
  ⟨fun pr h => runBatchTrace_exists ret tr ck dir lines fs pr h,
   runBatchTrace_fst ret tr ck dir lines fs⟩

/-- Concrete check of C5 (amended): in a one-item run whose transcode
raises, the appended path exists in the filesystem recorded at the
moment of appending. -/
theorem successes_exist_at_append_witness :
    fsExists [(⟨"d", "vid1.mp4"⟩, 9)] ⟨"d", "vid1.mp4"⟩ = true :=
  (successes_exist_at_append (retAlways 9) trRaise "ck" "d" ["u"] []).1
    (⟨"d", "vid1.mp4"⟩, [(⟨"d", "vid1.mp4"⟩, 9)]) (by decide)

/-- C5 counterexample: with a retrieval that leaves an empty (size-0)
file and a transcode that raises, the loop appends the empty file's path
to `valid_files`, so a recorded success path is not always non-empty at
the moment it is recorded. -/
theorem success_recorded_for_empty_file :
    runBatchTrace (retAlways 0) trRaise "ck" "d" ["u"] []
      = [(⟨"d", "vid1.mp4"⟩, [(⟨"d", "vid1.mp4"⟩, 0)])]
    ∧ (runBatch (retAlways 0) trRaise "ck" "d" ["u"] []).successes
      = [⟨"d", "vid1.mp4"⟩]
    ∧ fsSize [(⟨"d", "vid1.mp4"⟩, 0)] ⟨"d", "vid1.mp4"⟩ = some 0 := by
  decide

/-! ## Transcode failure is degraded, not surfaced -/

/-- C2: for a batch item whose retrieval phase produced an existing
local file, a transcode failure — an encoder exception, or a missing or
empty output — never fails the item: the pipeline returns the
pre-transcode path as its result and, provided the encoder run left the
pre-transcode file in place, the loop appends that path to
`valid_files` and adds nothing to `failed_lines` for this item. -/
theorem transcode_failure_degrades_to_success (ret : RetOracle)
    (tr : TransOracle) (ck dir line : String) (rest : List String)
    (fs fsr fs' : FS) (input out : Fpath) (ok : Bool)
    (hret : retrievePhase ret (parseLine line).1 dir ck fs = (some input, fsr))
    (hex : fsExists fsr input = true)
    (hout : out = ⟨input.dir, targetName input.name (parseLine line).2⟩)
    (htr : tr input out fsr = (ok, fs'))
    (hfail : ok = false ∨ fsPositive fs' out = false)
    (hpres : fsExists fs' input = true) :
    download_single_video ret tr (parseLine line).1 dir ck (parseLine line).2 fs
        = (some input, fs')
    ∧ (runBatch ret tr ck dir (line :: rest) fs).successes
        = input :: (runBatch ret tr ck dir rest fs').successes
    ∧ (runBatch ret tr ck dir (line :: rest) fs).failures
        = (runBatch ret tr ck dir rest fs').failures := by
  subst hout
  have hdl : download_single_video ret tr (parseLine line).1 dir ck
      (parseLine line).2 fs = (some input, fs') := by
    simp only [download_single_video, hret]
    simp only [convert_to_quicktime_mp4, hex, if_true, htr]
    rcases hfail with rfl | hneg
    · rfl
    · cases ok
      · rfl
      · simp [hneg]
  refine ⟨hdl, ?_, ?_⟩
  · simp only [runBatch, hdl, hpres, if_true]
  · simp only [runBatch, hdl, hpres, if_true]

/-- Concrete check of C2: retrieval leaves a 9-byte file, the encoder
raises; the item still succeeds with the pre-transcode path and the
failure list stays empty. -/
theorem transcode_failure_degrades_to_success_witness :
    download_single_video (retAlways 9) trRaise (parseLine "u").1 "d" "ck"
        (parseLine "u").2 []
      = (some ⟨"d", "vid1.mp4"⟩, [(⟨"d", "vid1.mp4"⟩, 9)])
    ∧ (runBatch (retAlways 9) trRaise "ck" "d" ("u" :: []) []).successes
        = ⟨"d", "vid1.mp4"⟩
            :: (runBatch (retAlways 9) trRaise "ck" "d" []
                  [(⟨"d", "vid1.mp4"⟩, 9)]).successes
    ∧ (runBatch (retAlways 9) trRaise "ck" "d" ("u" :: []) []).failures
        = (runBatch (retAlways 9) trRaise "ck" "d" []
            [(⟨"d", "vid1.mp4"⟩, 9)]).failures :=
  transcode_failure_degrades_to_success (retAlways 9) trRaise "ck" "d" "u" []
    [] [(⟨"d", "vid1.mp4"⟩, 9)] [(⟨"d", "vid1.mp4"⟩, 9)] ⟨"d", "vid1.mp4"⟩
    ⟨"d", "vid1_mac.mp4"⟩ false (by decide) (by decide) (by decide) (by decide)
    (Or.inl rfl) (by decide)

/-! ## Credential precondition -/

theorem mainRun_no_cookie (ret : RetOracle) (tr : TransOracle)
    (secret : Option String) (typedKey rawInput batchDir : String)
    (pressed : Bool) (fs : FS)
    (h : get_cookie_file_from_text (secret.getD typedKey) = none) :
    mainRun ret tr secret typedKey rawInput batchDir pressed fs
      = ⟨true, none, [], none, none, false⟩ := by
  simp [mainRun, h]

/-- C3: when no usable credential is available (neither the server
secret nor the typed key yields a cookie file), main shows the
authentication warning and returns at once: the input area is never
parsed, the retrieval adapter is never invoked, and no report or archive
is produced. -/
theorem no_credential_refuses_batch (ret : RetOracle) (tr : TransOracle)
    (secret : Option String) (typedKey rawInput batchDir : String)
    (pressed : Bool) (fs : FS)
    (h : get_cookie_file_from_text (secret.getD typedKey) = none) :
    mainRun ret tr secret typedKey rawInput batchDir pressed fs
      = ⟨true, none, [], none, none, false⟩ :=
  mainRun_no_cookie ret tr secret typedKey rawInput batchDir pressed fs h

/-- Concrete check of C3: an empty typed key and no server secret stop
main before anything else happens. -/
theorem no_credential_refuses_batch_witness :
    mainRun (retAlways 9) (trMake 5) none "" "u1\nu2" "d" true []
      = ⟨true, none, [], none, none, false⟩ :=
  no_credential_refuses_batch (retAlways 9) (trMake 5) none "" "u1\nu2" "d"
    true [] (by decide)

/-- C10: a credential text yields no cookie file exactly when it is
shorter than 50 characters (the empty text included); any such text
makes main refuse the batch without a single retrieval call, while a
text of at least 50 characters yields a usable handle. -/
theorem short_credential_treated_absent (ret : RetOracle) (tr : TransOracle)
    (t rawInput batchDir : String) (pressed : Bool) (fs : FS) :
    (get_cookie_file_from_text t = none ↔ t.length < 50)
    ∧ (t.length < 50 →
        mainRun ret tr none t rawInput batchDir pressed fs
          = ⟨true, none, [], none, none, false⟩)
    ∧ (50 ≤ t.length → (get_cookie_file_from_text t).isSome = true) := by
  have hiff : get_cookie_file_from_text t = none ↔ t.length < 50 := by
    unfold get_cookie_file_from_text
    by_cases hlt : t.length < 50
    · simp [hlt]
    · have hne : ¬(t = "" ∨ t.length < 50) := by
        rintro (rfl | hc)
        · exact hlt (by simp)
        · exact hlt hc
      rw [if_neg hne]
      simp [hlt]
  refine ⟨hiff, fun hlt => ?_, fun hge => ?_⟩
  · exact mainRun_no_cookie ret tr none t rawInput batchDir pressed
      fs (hiff.mpr hlt)
  · rcases hk : get_cookie_file_from_text t with _ | ck
    · exact absurd (hiff.mp hk) (Nat.not_lt.mpr hge)
    · rfl

/-- Concrete check of C10: a 5-character key is refused, the 50-character
key is usable. -/
theorem short_credential_treated_absent_witness :
    mainRun (retAlways 9) (trMake 5) none "abcde" "u1" "d" true []
      = ⟨true, none, [], none, none, false⟩
    ∧ (get_cookie_file_from_text key50).isSome = true :=
  ⟨(short_credential_treated_absent (retAlways 9) (trMake 5) "abcde" "u1" "d"
      true []).2.1 (by decide),
   (short_credential_treated_absent (retAlways 9) (trMake 5) key50 "u1" "d"
      true []).2.2 (by decide)⟩

/-! ## Verification of the retrieved file and the glob recovery -/

/-- C4 counterexample: the pipeline never checks the retrieved file for
non-emptiness — with an empty (size-0) file at the declared output path
the item is not failed with RetrievalError; it proceeds and (here, with
the encoder raising) comes back as the empty file's own path. -/
theorem empty_retrieved_file_not_rejected :
    download_single_video (retDeclare "v.mp4" "v") trRaise "u" "d" "c" none
        [(⟨"d", "v.mp4"⟩, 0)]
      = (some ⟨"d", "v.mp4"⟩, [(⟨"d", "v.mp4"⟩, 0)])
    ∧ fsSize [(⟨"d", "v.mp4"⟩, 0)] ⟨"d", "v.mp4"⟩ = some 0
    ∧ (runBatch (retDeclare "v.mp4" "v") trRaise "c" "d" ["u"]
        [(⟨"d", "v.mp4"⟩, 0)]).failures = [] := by
  decide

/-- C4 amended: for every batch item whose retrieval adapter call
returns normally, the pipeline checks that the declared output path
exists (existence only — the file may be empty); if it does not exist it
searches the scratch directory for a file whose name contains the
reported item identifier, and if none is found the pipeline returns no
path, so the loop records the item's URL as a failure (a
RetrievalError). -/
theorem retrieval_existence_check_and_recovery (ret : RetOracle)
    (tr : TransOracle) (url dir ck : String) (custom : Option String)
    (fs fs1 : FS) (declared vid : String)
    (hret : ret url dir ck fs = (some (declared, vid), fs1)) :
    (fsExists fs1 ⟨dir, declared⟩ = true →
        retrievePhase ret url dir ck fs = (some ⟨dir, declared⟩, fs1))
    ∧ (fsExists fs1 ⟨dir, declared⟩ = false →
        (∀ found, globFirst fs1 dir vid = some found →
            retrievePhase ret url dir ck fs = (some found, fs1))
        ∧ (globFirst fs1 dir vid = none →
            download_single_video ret tr url dir ck custom fs = (none, fs1)
            ∧ ∀ line rest fs0,
                parseLine line = (url, custom) →
                download_single_video ret tr url dir ck custom fs0
                  = (none, fs1) →
                (runBatch ret tr ck dir (line :: rest) fs0).failures
                  = url :: (runBatch ret tr ck dir rest fs1).failures)) := by
  refine ⟨fun hex => ?_, fun hnex => ⟨fun found hg => ?_, fun hg => ⟨?_, ?_⟩⟩⟩
  · simp only [retrievePhase, hret, hex, if_true]
  · simp only [retrievePhase, hret, hnex, Bool.false_eq_true, if_false, hg]
  · simp only [download_single_video, retrievePhase, hret, hnex,
      Bool.false_eq_true, if_false, hg]
  · intro line rest fs0 hline hdl
    simp only [runBatch, hline, hdl]

/-- Concrete check of C4 (amended): a declared file that does not exist
and an empty scratch directory give a failed item. -/
theorem retrieval_existence_check_and_recovery_witness :
    download_single_video (retDeclare "g.mp4" "g") trRaise "u" "d" "c" none []
      = (none, [])
    ∧ (runBatch (retDeclare "g.mp4" "g") trRaise "c" "d" ["u"] []).failures
      = "u" :: (runBatch (retDeclare "g.mp4" "g") trRaise "c" "d" [] []).failures :=
  by
  have h := (retrieval_existence_check_and_recovery (retDeclare "g.mp4" "g")
    trRaise "u" "d" "c" none [] [] "g.mp4" "g" (by decide)).2 (by decide)
  have h2 := (h.2 (by decide))
  exact ⟨h2.1, h2.2 "u" [] [] (by decide) h2.1⟩

/-! ## Archive packaging -/

/-- C6: when the batch loop ends with a non-empty `valid_files`, the zip
block runs and the archive holds exactly `len(successes)` entries, the
entry names being the base names of the success paths in order; when
`valid_files` is empty, the zip block is never entered. -/
theorem archive_matches_successes (ret : RetOracle) (tr : TransOracle)
    (secret : Option String) (typedKey rawInput batchDir : String) (fs : FS)
    (ck : String)
    (hck : get_cookie_file_from_text (secret.getD typedKey) = some ck)
    (hne : nonBlankLines rawInput ≠ []) :
    ((runBatch ret tr ck batchDir (nonBlankLines rawInput) fs).successes ≠ [] →
        (mainRun ret tr secret typedKey rawInput batchDir true fs).archiveEntries
          = some ((runBatch ret tr ck batchDir
              (nonBlankLines rawInput) fs).successes.map Fpath.name)
        ∧ ((runBatch ret tr ck batchDir
              (nonBlankLines rawInput) fs).successes.map Fpath.name).length
          = (runBatch ret tr ck batchDir
              (nonBlankLines rawInput) fs).successes.length)
    ∧ ((runBatch ret tr ck batchDir (nonBlankLines rawInput) fs).successes = [] →
        (mainRun ret tr secret typedKey rawInput batchDir true fs).archiveEntries
          = none) := by
  constructor
  · intro hs
    refine ⟨?_, List.length_map _ _⟩
    simp [mainRun, hck, List.isEmpty_iff, hne, hs]
  · intro hs
    simp [mainRun, hck, List.isEmpty_iff, hne, hs]

/-- Concrete check of C6: a two-item run with both items succeeding
produces an archive whose entries are the two base names. -/
theorem archive_matches_successes_witness :
    (mainRun (retAlways 9) (trMake 5) none key50 "u1\nu2"
        "d" true []).archiveEntries
      = some ((runBatch (retAlways 9) (trMake 5) key50 "d"
          (nonBlankLines "u1\nu2") []).successes.map Fpath.name)
    ∧ ((runBatch (retAlways 9) (trMake 5) key50 "d"
          (nonBlankLines "u1\nu2") []).successes.map Fpath.name).length
      = (runBatch (retAlways 9) (trMake 5) key50 "d"
          (nonBlankLines "u1\nu2") []).successes.length :=
  (archive_matches_successes (retAlways 9) (trMake 5) none key50 "u1\nu2" "d"
    [] key50 (by decide) (by decide)).1 (by decide)

/-! ## Files kept by the transcode step -/

theorem fsErase_cons (e : Fpath × Nat) (rest : FS) (p : Fpath) :
    fsErase (e :: rest) p
      = if e.1 = p then fsErase rest p else e :: fsErase rest p := by
  by_cases h : e.1 = p
  · simp [fsErase, List.filter_cons, h]
  · simp [fsErase, List.filter_cons, h]

theorem fsSize_erase (p q : Fpath) :
    ∀ fs : FS, fsSize (fsErase fs p) q = if q = p then none else fsSize fs q := by
  intro fs
  induction fs with
  | nil => simp [fsErase, fsSize]
  | cons e rest ih =>
    obtain ⟨e1, n1⟩ := e
    rw [fsErase_cons]
    by_cases he : e1 = p
    · rw [if_pos he, ih]
      by_cases hq : q = p
      · simp [hq]
      · have hne : ¬ e1 = q := by
          rw [he]; exact fun h => hq h.symm
        simp [fsSize, hq, hne]
    · rw [if_neg he]
      by_cases heq : e1 = q
      · have hqp : ¬ q = p := fun h => he (heq.trans h)
        simp [fsSize, heq, hqp]
      · simp [fsSize, heq, ih]

/-- C8 amended: when the transcode succeeds — the encoder returns, the
output file exists non-empty, the output name differs from the input
name, and the input survived the encoder run — the pre-transcode file is
unlinked, so exactly one copy (the output) survives; but when the
transcode fails the pre-transcode file is kept while a partial output
created by the failed encoder run may remain beside it, so the step can
leave two files, not a net of one. -/
theorem transcode_success_keeps_one_copy (tr : TransOracle) (input : Fpath)
    (custom : Option String) (fs fs' : FS)
    (hex : fsExists fs input = true)
    (htr : tr input ⟨input.dir, targetName input.name custom⟩ fs = (true, fs'))
    (hpos : fsPositive fs' ⟨input.dir, targetName input.name custom⟩ = true)
    (hin : fsExists fs' input = true)
    (hne : input ≠ ⟨input.dir, targetName input.name custom⟩) :
    convert_to_quicktime_mp4 tr input custom fs
        = (some ⟨input.dir, targetName input.name custom⟩, fsErase fs' input)
    ∧ fsExists (fsErase fs' input) input = false
    ∧ fsExists (fsErase fs' input) ⟨input.dir, targetName input.name custom⟩
        = true := by
  refine ⟨?_, ?_, ?_⟩
  · simp only [convert_to_quicktime_mp4, hex, if_true, htr, hpos, hin]
  · simp [fsExists, fsSize_erase]
  · have hne2 : (⟨input.dir, targetName input.name custom⟩ : Fpath) ≠ input :=
      fun h => hne h.symm
    have : fsExists fs' ⟨input.dir, targetName input.name custom⟩ = true := by
      unfold fsPositive at hpos
      unfold fsExists
      rcases h : fsSize fs' ⟨input.dir, targetName input.name custom⟩ with _ | n
      · rw [h] at hpos; cases hpos
      · rfl
    simpa [fsExists, fsSize_erase, hne2] using this

/-- Concrete check of C8 (amended): a successful transcode of a 7-byte
`a.mp4` into a 5-byte `a_mac.mp4` deletes `a.mp4` and keeps only the
output. -/
theorem transcode_success_keeps_one_copy_witness :
    convert_to_quicktime_mp4 (trMake 5) ⟨"d", "a.mp4"⟩ none [(⟨"d", "a.mp4"⟩, 7)]
      = (some ⟨"d", targetName "a.mp4" none⟩,
         fsErase [(⟨"d", targetName "a.mp4" none⟩, 5), (⟨"d", "a.mp4"⟩, 7)]
           ⟨"d", "a.mp4"⟩)
    ∧ fsExists (fsErase [(⟨"d", targetName "a.mp4" none⟩, 5),
          (⟨"d", "a.mp4"⟩, 7)] ⟨"d", "a.mp4"⟩) ⟨"d", "a.mp4"⟩ = false
    ∧ fsExists (fsErase [(⟨"d", targetName "a.mp4" none⟩, 5),
          (⟨"d", "a.mp4"⟩, 7)] ⟨"d", "a.mp4"⟩) ⟨"d", targetName "a.mp4" none⟩
        = true :=
  transcode_success_keeps_one_copy (trMake 5) ⟨"d", "a.mp4"⟩ none
    [(⟨"d", "a.mp4"⟩, 7)]
    [(⟨"d", targetName "a.mp4" none⟩, 5), (⟨"d", "a.mp4"⟩, 7)]
    (by decide) (by decide) (by decide) (by decide) (by decide)

/-- C8 counterexample: when the encoder returns but has produced an
empty output (a failed transcode by the code's own test), the fallback
returns the pre-transcode path and nothing is deleted: both the
pre-transcode file and the empty output remain, so the step keeps two
files, not a net of one. -/
theorem failed_transcode_leaves_two_files :
    convert_to_quicktime_mp4 (trMake 0) ⟨"d", "a.mp4"⟩ none
        [(⟨"d", "a.mp4"⟩, 7)]
      = (some ⟨"d", "a.mp4"⟩, [(⟨"d", "a_mac.mp4"⟩, 0), (⟨"d", "a.mp4"⟩, 7)])
    ∧ ([(⟨"d", "a_mac.mp4"⟩, 0), (⟨"d", "a.mp4"⟩, 7)] : FS).length = 2
    ∧ fsExists [(⟨"d", "a_mac.mp4"⟩, 0), (⟨"d", "a.mp4"⟩, 7)] ⟨"d", "a.mp4"⟩
        = true
    ∧ fsExists [(⟨"d", "a_mac.mp4"⟩, 0), (⟨"d", "a.mp4"⟩, 7)]
        ⟨"d", "a_mac.mp4"⟩ = true := by
  decide

/-! ## The spec's two-item scenario -/

/-- C9 counterexample: in the two-item scenario with both adapters
succeeding, the second success carries the fixed suffix `"_mac"`, not
`"_normalized"`: `"b_normalized"` is not even a leading segment of the
actual base name `"b_mac.mp4"`, so no choice of output extension makes
the claim's name `"b" ++ "_normalized" ++ ext` match. -/
theorem scenario_suffix_not_normalized :
    ((runBatch retScenario (trMake 50) "ck" "d"
        (nonBlankLines "https://example.com/a - My Clip\nhttps://example.com/b")
        []).successes.map Fpath.name)
      = ["My Clip.mp4", "b_mac.mp4"]
    ∧ (runBatch retScenario (trMake 50) "ck" "d"
        (nonBlankLines "https://example.com/a - My Clip\nhttps://example.com/b")
        []).failures = []
    ∧ leadsWith "b_normalized".toList "b_mac.mp4".toList = false := by
  decide

/-- C9 amended: for the input
`"https://example.com/a - My Clip\nhttps://example.com/b"` with
retrieval and transcode succeeding for both items (the first URL
retrieving `A1.mp4`, the second `b.mp4`), the report has no failures and
exactly two successes, whose base names are the sanitized custom name
plus `".mp4"` for the first item and the retrieved file's stem plus the
fixed suffix `"_mac"` plus `".mp4"` for the second; the archive holds
exactly those two entries. -/
theorem scenario_two_items_mac_suffix :
    mainRun retScenario (trMake 50) none key50
        "https://example.com/a - My Clip\nhttps://example.com/b" "d" true []
      = ⟨false,
         some ["https://example.com/a - My Clip", "https://example.com/b"],
         ["https://example.com/a", "https://example.com/b"],
         some ([⟨"d", sanitize_filename "My Clip" ++ ".mp4"⟩,
                ⟨"d", pyStem "b.mp4" ++ "_mac.mp4"⟩], []),
         some [sanitize_filename "My Clip" ++ ".mp4",
               pyStem "b.mp4" ++ "_mac.mp4"],
         false⟩ := by
  decide

end InstaTool
